import Mathlib

/-!
# Verification of the Ask2Slide RAG pipeline against its specification

Shallow embedding of the ingestion-and-retrieval pipeline:

* `app/rag/convert_file.py` — `DocumentProcessor` (`_split_text`,
  `process_file`, `_process_pdf_as_images`, `_process_chunks`);
* `app/rag/colbert_service.py` — `ColBERTService` (`process_query`,
  `process_image`, `_generate_mock_embedding`, `create_kb_collection`,
  `search`, `_mock_search_results`);
* `app/db/milvus.py` — `MilvusManager` (`insert_vectors`, `search`);
* `app/rag/process_file.py` — the HTTP-relayed ingestion path
  (collection naming, `replace_image_content`).

Python strings are modelled as `List Char`, floats as `ℚ`, external
stores and the embedding model as explicit oracles, exceptions as
`Except Unit` (or as boolean "this call raises" oracles where the source
catches them), and mutable Python objects (for the frame claim) as an
explicit address-indexed heap.
-/

/-! ## `DocumentProcessor._split_text` (`app/rag/convert_file.py`, lines 417–431)

```python
if not text:
    return []
chunks = []
start = 0
text_len = len(text)
while start < text_len:
    end = min(start + chunk_size, text_len)
    chunks.append(text[start:end])
    start += chunk_size - chunk_overlap
return chunks
```

The Python slice `text[start:end]` (with `start ≤ end ≤ len`) is
`(text.drop start).take (end - start)`.  The loop terminates exactly when
`chunk_overlap < chunk_size`; the embedding carries that bound as a
hypothesis, matching the parameter regime of every claim about it. -/

def splitTextLoop (text : List Char) (chunk_size chunk_overlap : Nat)
    (hov : chunk_overlap < chunk_size) (start : Nat) : List (List Char) :=
  if h : start < text.length then
    ((text.drop start).take (min (start + chunk_size) text.length - start)) ::
      splitTextLoop text chunk_size chunk_overlap hov
        (start + (chunk_size - chunk_overlap))
  else
    []
termination_by text.length - start
decreasing_by omega

/-- `DocumentProcessor._split_text(text, chunk_size, chunk_overlap)`. -/
def splitText (text : List Char) (chunk_size chunk_overlap : Nat)
    (hov : chunk_overlap < chunk_size) : List (List Char) :=
  if text.isEmpty then [] else splitTextLoop text chunk_size chunk_overlap hov 0

/-- Ceiling division on `ℕ`, used to state window-count formulas. -/
def ceilDivNat (x s : Nat) : Nat := (x + s - 1) / s

theorem ceilDivNat_pos_step (x s : Nat) (hs : 0 < s) (hx : 0 < x) :
    ceilDivNat x s = ceilDivNat (x - s) s + 1 := by
  unfold ceilDivNat
  rcases le_or_lt s x with hle | hlt
  · have hx1 : x + s - 1 = (x - s + s - 1) + s := by omega
    rw [hx1, Nat.add_div_right _ hs]
  · have h0 : x - s = 0 := by omega
    have h1 : (0 + s - 1) / s = 0 := Nat.div_eq_of_lt (by omega)
    have h2 : (x + s - 1) / s = 1 :=
      Nat.div_eq_of_lt_le (by omega) (by omega)
    rw [h0, h1, h2]

theorem splitTextLoop_length (text : List Char) (cs co : Nat) (hov : co < cs) :
    ∀ start, (splitTextLoop text cs co hov start).length
      = ceilDivNat (text.length - start) (cs - co) := by
  have hs : 0 < cs - co := by omega
  suffices H : ∀ n start, text.length - start = n →
      (splitTextLoop text cs co hov start).length
        = ceilDivNat (text.length - start) (cs - co) by
    intro start
    exact H (text.length - start) start rfl
  intro n
  induction n using Nat.strong_induction_on with
  | _ n ih =>
    intro start hn
    rw [splitTextLoop]
    split
    · rename_i hlt
      have hrec := ih (text.length - (start + (cs - co))) (by omega)
        (start + (cs - co)) rfl
      have harg : text.length - (start + (cs - co))
          = text.length - start - (cs - co) := by omega
      rw [List.length_cons, hrec, harg,
        ceilDivNat_pos_step (text.length - start) (cs - co) hs (by omega)]
    · rename_i hge
      have h0 : text.length - start = 0 := by omega
      simp [h0, ceilDivNat, Nat.div_eq_of_lt (by omega : cs - co - 1 < cs - co)]

theorem splitTextLoop_mem_slice (text : List Char) (cs co : Nat) (hov : co < cs) :
    ∀ start, ∀ c ∈ splitTextLoop text cs co hov start,
      ∃ k, c = (text.drop k).take (min (k + cs) text.length - k) := by
  suffices H : ∀ n start, text.length - start = n →
      ∀ c ∈ splitTextLoop text cs co hov start,
        ∃ k, c = (text.drop k).take (min (k + cs) text.length - k) by
    intro start
    exact H (text.length - start) start rfl
  intro n
  induction n using Nat.strong_induction_on with
  | _ n ih =>
    intro start hn
    rw [splitTextLoop]
    split
    · rename_i hlt
      intro c hc
      rcases List.mem_cons.mp hc with h | h
      · exact ⟨start, h⟩
      · exact ih (text.length - (start + (cs - co))) (by omega)
          (start + (cs - co)) rfl c h
    · intro c hc
      simp at hc

/-- Helper: a slice window never exceeds `chunk_size` in length and is
made only of the text's own characters (never padded). -/
theorem slice_window_le (text : List Char) (cs k : Nat) :
    ((text.drop k).take (min (k + cs) text.length - k)).length ≤ cs := by
  simp only [List.length_take, List.length_drop]
  omega

/-! ## Distance-to-score map (`app/rag/colbert_service.py`, line 267)

```python
score = 1.0 / (1.0 + distance)
```
-/

def l2_to_score (distance : ℚ) : ℚ := 1 / (1 + distance)

/-- **C1, counterexample.** On the 10-character text `"abcdefghij"` with
`chunk_size = 5` and `chunk_overlap = 2`, `_split_text` produces 4 windows
(offsets 0, 3, 6, 9), while the claimed count
`ceil(max(L−O,0)/(W−O)) = ceil(8/3) = 3`. -/
theorem claim_C1_counterexample :
    (splitText ("abcdefghij".data) 5 2 (by omega)).length = 4
    ∧ ceilDivNat (max (("abcdefghij".data).length - 2) 0) (5 - 2) = 3 := by
  constructor
  · have hne : ("abcdefghij".data).isEmpty = false := by decide
    simp only [splitText, hne, Bool.false_eq_true, if_false]
    rw [splitTextLoop_length]
    decide
  · decide

/-- **C1 (amended).** For every text of length `L` and parameters
`chunk_size W`, `chunk_overlap O` with `O < W`: `_split_text` returns
exactly `ceil(L/(W−O))` windows when `L > 0` (not `ceil(max(L−O,0)/(W−O))`
as claimed), zero windows when `L = 0`; every window is a contiguous slice
of the text of length at most `W`, so the final window truncates at `L`
and is never padded. -/
theorem claim_C1_amended (text : List Char) (cs co : Nat) (hov : co < cs) :
    (0 < text.length →
      (splitText text cs co hov).length = ceilDivNat text.length (cs - co))
    ∧ (text.length = 0 → splitText text cs co hov = [])
    ∧ ∀ c ∈ splitText text cs co hov,
        c.length ≤ cs ∧ ∃ k, c = (text.drop k).take (min (k + cs) text.length - k) := by
  refine ⟨?_, ?_, ?_⟩
  · intro hpos
    have hne : text.isEmpty = false := by
      cases text with
      | nil => simp at hpos
      | cons a t => rfl
    simp only [splitText, hne, Bool.false_eq_true, if_false]
    rw [splitTextLoop_length]
    simp
  · intro h0
    have ht : text = [] := List.length_eq_zero.mp h0
    subst ht
    rfl
  · intro c hc
    by_cases hemp : text.isEmpty = true
    · simp only [splitText, hemp, if_true] at hc
      simp at hc
    · simp only [splitText, hemp, Bool.false_eq_true, if_false] at hc
      obtain ⟨k, hk⟩ := splitTextLoop_mem_slice text cs co hov 0 c hc
      refine ⟨?_, k, hk⟩
      rw [hk]
      exact slice_window_le text cs k

/-- **C1 witness** for the amended theorem, at the counterexample input:
10 characters, window 5, overlap 2 give `ceil(10/3) = 4` windows. -/
theorem claim_C1_witness :
    (splitText ("abcdefghij".data) 5 2 (by omega)).length
      = ceilDivNat ("abcdefghij".data).length (5 - 2) :=
  (claim_C1_amended ("abcdefghij".data) 5 2 (by omega)).1 (by decide)

/-- **C9 (confirmed).** The distance-to-score map `score = 1/(1+d)` used by
`ColBERTService.search` is strictly decreasing on nonnegative distances,
and maps every nonnegative distance into `(0, 1]`. -/
theorem claim_C9 :
    (∀ d1 d2 : ℚ, 0 ≤ d1 → d1 < d2 → l2_to_score d2 < l2_to_score d1)
    ∧ (∀ d : ℚ, 0 ≤ d → 0 < l2_to_score d ∧ l2_to_score d ≤ 1) := by
  constructor
  · intro d1 d2 h1 h12
    exact one_div_lt_one_div_of_lt (by linarith) (by linarith)
  · intro d hd
    constructor
    · have h1 : (0:ℚ) < 1 + d := by linarith
      rw [l2_to_score]
      positivity
    · rw [l2_to_score, div_le_one (by linarith)]
      linarith

/-- **C9 witness**: the monotonicity and range facts instantiated at the
concrete distances 0 and 1. -/
theorem claim_C9_witness :
    l2_to_score 1 < l2_to_score 0 ∧ 0 < l2_to_score 1 ∧ l2_to_score 1 ≤ 1 :=
  ⟨claim_C9.1 0 1 (by norm_num) (by norm_num),
   (claim_C9.2 1 (by norm_num)).1,
   (claim_C9.2 1 (by norm_num)).2⟩

/-! ## Vector collection naming

The in-process ingestion path (`app/rag/colbert_service.py` line 170,
also `convert_file.py` lines 163/266/451) computes the collection name as
`f"colqwen_{kb_id}"`.  The HTTP-relayed ingestion path
(`app/rag/process_file.py` line 99) computes
`f"colqwen{knowledge_db_id.replace('-', '_')}"`. -/

def colbert_collection_name (kb_id : String) : String := "colqwen_" ++ kb_id

/-- Python's `s.replace('-', '_')` for single-character pattern and
replacement is exactly the character-wise map. -/
def replaceDashUnderscore (s : String) : String :=
  ⟨s.data.map (fun c => if c = '-' then '_' else c)⟩

def http_collection_name (knowledge_db_id : String) : String :=
  "colqwen" ++ replaceDashUnderscore knowledge_db_id

/-- **C7, counterexample.** The two ingestion paths do not compute the
same collection name for the same kb id: for `kb_id = "abc"` the
in-process path yields `"colqwen_abc"` and the HTTP-relayed path
`"colqwenabc"`; moreover the HTTP-relayed naming is not injective:
`"a-b"` and `"a_b"` are distinct kb ids mapped to the same collection. -/
theorem claim_C7_counterexample :
    colbert_collection_name "abc" ≠ http_collection_name "abc"
    ∧ http_collection_name "a-b" = http_collection_name "a_b"
    ∧ ("a-b" : String) ≠ "a_b" := by
  refine ⟨?_, ?_, ?_⟩ <;> decide

/-- **C7 (amended).** Each path's collection name is a deterministic pure
function of the kb id, and the in-process name `colqwen_<kb_id>` is
injective; but the HTTP-relayed path computes a different function
`colqwen<kb_id with '-' replaced by '_'>`, which disagrees with the
in-process name on every kb id (the names even have different lengths)
and is not collision-free. -/
theorem claim_C7_amended :
    (∀ a b : String, colbert_collection_name a = colbert_collection_name b → a = b)
    ∧ (∀ kb : String, colbert_collection_name kb ≠ http_collection_name kb)
    ∧ (http_collection_name "a-b" = http_collection_name "a_b"
        ∧ ("a-b" : String) ≠ "a_b") := by
  refine ⟨?_, ?_, ?_, ?_⟩
  · intro a b h
    apply String.ext
    have hd := congrArg String.data h
    rw [colbert_collection_name, colbert_collection_name,
      String.data_append, String.data_append] at hd
    exact List.append_cancel_left hd
  · intro kb h
    have hlen := congrArg String.length h
    rw [colbert_collection_name, http_collection_name,
      String.length_append, String.length_append] at hlen
    have h1 : ("colqwen_" : String).length = 8 := rfl
    have h2 : ("colqwen" : String).length = 7 := rfl
    have h3 : (replaceDashUnderscore kb).length = kb.length := by
      rw [replaceDashUnderscore, String.length_mk, List.length_map]
      rfl
    rw [h1, h2, h3] at hlen
    omega
  · decide
  · decide

/-- **C7 witness**: the amended theorem's injectivity part applied at a
concrete kb id, and the path disagreement at that same id. -/
theorem claim_C7_witness :
    ("kb1" : String) = "kb1"
    ∧ colbert_collection_name "kb1" ≠ http_collection_name "kb1" :=
  ⟨claim_C7_amended.1 "kb1" "kb1" rfl, claim_C7_amended.2.1 "kb1"⟩

/-! ## `MilvusManager.insert_vectors` (`app/db/milvus.py`, lines 164–237)

External effects are oracles: `connected`/`init_ok` model the connection
check, `get_ok`/`create_ok` whether `get_collection`/`create_collection`
return a collection, `insert_raises` whether `collection.insert(data)`
raises (caught by the method, which then returns `False` with nothing
inserted).  The row-aligned data finally passed to `collection.insert` is
recorded in `inserted`. -/

structure MilvusRow where
  row_id : String
  doc_id : String
  embedding : List ℚ
deriving DecidableEq

structure InsertEnv where
  connected : Bool
  init_ok : Bool
  get_ok : Bool
  create_ok : Bool
  insert_raises : Bool

structure InsertOutcome where
  success : Bool
  inserted : List MilvusRow
deriving DecidableEq

/-- `doc_ids = [f"doc_{i}" for i in range(len(ids))]`. -/
def default_doc_ids (n : Nat) : List String :=
  (List.range n).map (fun i => "doc_" ++ toString i)

/-- `MilvusManager.insert_vectors(collection_name, ids, vectors, doc_ids)`.
Mirrors the source: `if doc_ids:` is Python truthiness (`None` or the
empty list both take the default branch); a provided nonempty `doc_ids`
of the wrong length is logged and replaced by `default_doc_ids`. -/
def insert_vectors (env : InsertEnv) (ids : List String)
    (vectors : List (List ℚ)) (doc_ids : Option (List String)) : InsertOutcome :=
  if ¬(env.connected || env.init_ok) then ⟨false, []⟩
  else if ¬(env.get_ok || env.create_ok) then ⟨false, []⟩
  else
    let dids :=
      match doc_ids with
      | some ds =>
          if ds.isEmpty then default_doc_ids ids.length
          else if ds.length ≠ ids.length then default_doc_ids ids.length
          else ds
      | none => default_doc_ids ids.length
    if env.insert_raises then ⟨false, []⟩
    else ⟨true, (ids.zip (dids.zip vectors)).map (fun p => ⟨p.1, p.2.1, p.2.2⟩)⟩

/-- A fully healthy environment: connected, collection found, insert
accepted. -/
def insert_env0 : InsertEnv := ⟨true, true, true, true, false⟩

theorem zip3_doc_ids (ids dids : List String) (vecs : List (List ℚ))
    (h1 : dids.length = ids.length) (h2 : vecs.length = ids.length) :
    ((ids.zip (dids.zip vecs)).map
        (fun p => (⟨p.1, p.2.1, p.2.2⟩ : MilvusRow))).map MilvusRow.doc_id
      = dids := by
  induction ids generalizing dids vecs with
  | nil =>
    have : dids = [] := List.length_eq_zero.mp h1
    subst this
    rfl
  | cons a t ih =>
    cases dids with
    | nil => simp at h1
    | cons b bt =>
      cases vecs with
      | nil => simp at h2
      | cons v vt =>
        simp only [List.zip_cons_cons, List.map_cons]
        rw [ih bt vt (by simpa using h1) (by simpa using h2)]

theorem default_doc_ids_length (n : Nat) : (default_doc_ids n).length = n := by
  simp [default_doc_ids]

/-- **C2, counterexample.** With a healthy Milvus, inserting 2 chunk ids
with a 1-element `doc_ids` list does not fail: it reports success and
inserts both rows, with the provided doc ids silently replaced by the
defaults `doc_0`, `doc_1`. -/
theorem claim_C2_counterexample :
    (insert_vectors insert_env0 ["c1", "c2"] [[1], [2]] (some ["d1"])).success = true
    ∧ (insert_vectors insert_env0 ["c1", "c2"] [[1], [2]] (some ["d1"])).inserted
        = [⟨"c1", "doc_0", [1]⟩, ⟨"c2", "doc_1", [2]⟩] := by
  constructor <;> decide

/-- **C2 (amended).** When the provided `doc_ids` list has a different
length than the chunk-ids list (with Milvus reachable, the collection
available, and the insert accepted), `insert_vectors` does NOT fail: it
silently replaces the whole `doc_ids` list by the default values
`doc_0, doc_1, …`, inserts one row per chunk id, and returns success. -/
theorem claim_C2_amended (env : InsertEnv) (ids ds : List String)
    (vectors : List (List ℚ))
    (henv1 : env.connected = true) (henv2 : env.get_ok = true)
    (henv3 : env.insert_raises = false)
    (hlen : ds.length ≠ ids.length) (hvec : vectors.length = ids.length) :
    (insert_vectors env ids vectors (some ds)).success = true
    ∧ (insert_vectors env ids vectors (some ds)).inserted.map MilvusRow.doc_id
        = default_doc_ids ids.length
    ∧ (insert_vectors env ids vectors (some ds)).inserted.length = ids.length := by
  have hd : (insert_vectors env ids vectors (some ds))
      = ⟨true, (ids.zip ((default_doc_ids ids.length).zip vectors)).map
          (fun p => ⟨p.1, p.2.1, p.2.2⟩)⟩ := by
    rw [insert_vectors]
    rw [if_neg (by simp [henv1]), if_neg (by simp [henv2]), if_neg (by simp [henv3])]
    by_cases hemp : ds.isEmpty
    · simp [hemp]
    · simp [hemp, hlen]
  refine ⟨by rw [hd], ?_, ?_⟩
  · rw [hd]
    exact zip3_doc_ids ids (default_doc_ids ids.length) vectors
      (default_doc_ids_length ids.length) hvec
  · rw [hd]
    simp [List.length_zip, default_doc_ids_length, hvec]

/-- **C2 witness**: the amended theorem at the concrete mismatched input
(2 chunk ids, 1 provided doc id). -/
theorem claim_C2_witness :
    (insert_vectors insert_env0 ["c1", "c2"] [[1], [2]] (some ["d1"])).success = true
    ∧ (insert_vectors insert_env0 ["c1", "c2"] [[1], [2]] (some ["d1"])).inserted.map
        MilvusRow.doc_id = default_doc_ids 2
    ∧ (insert_vectors insert_env0 ["c1", "c2"] [[1], [2]] (some ["d1"])).inserted.length = 2 :=
  claim_C2_amended insert_env0 ["c1", "c2"] ["d1"] [[1], [2]]
    rfl rfl rfl (by decide) (by decide)

/-! ## `ColBERTService` embedding provider
(`app/rag/colbert_service.py`, lines 18–162)

`FORCE_MOCK_MODE = True` is hard-coded in the source, so
`_is_model_loaded()` always returns `False`.  The real inference path is
nevertheless embedded: `infer` is the oracle for one sub-batch of model
inference (it may raise), `rng i` is the stream of `random.uniform(-1,1)`
draws used by the i-th `_generate_mock_embedding()` call. -/

def FORCE_MOCK_MODE : Bool := true

/-- `self.embedding_dim = 768`, set unconditionally in `__init__`. -/
def colbert_embedding_dim : Nat := 768

/-- `ColBERTService._generate_mock_embedding()`. -/
def generate_mock_embedding (rng : Nat → ℚ) : List ℚ :=
  (List.range colbert_embedding_dim).map rng

/-- `ColBERTService._is_model_loaded()`. -/
def is_model_loaded (model_loaded processor_loaded : Bool) : Bool :=
  if FORCE_MOCK_MODE then false else model_loaded && processor_loaded

/-- The `for i in range(0, len(items), batch_size)` inference loop with
batch size `bs + 1`; any raise aborts the whole loop (the caller's
`try` then falls back to mocks). -/
def batched_inference {α : Type} (bs : Nat)
    (infer : List α → Except Unit (List (List ℚ))) (items : List α) :
    Except Unit (List (List ℚ)) :=
  if h : items.isEmpty then .ok []
  else
    match infer (items.take (bs + 1)) with
    | .error e => .error e
    | .ok first =>
        match batched_inference bs infer (items.drop (bs + 1)) with
        | .error e => .error e
        | .ok rest => .ok (first ++ rest)
termination_by items.length
decreasing_by
  cases items with
  | nil => simp at h
  | cons a t => simp [List.length_drop]; omega

/-- `ColBERTService.process_query(queries)` (batch size 8). -/
def process_query (model_loaded processor_loaded : Bool)
    (infer : List (List Char) → Except Unit (List (List ℚ)))
    (rng : Nat → Nat → ℚ) (queries : List (List Char)) : List (List ℚ) :=
  if ¬ (is_model_loaded model_loaded processor_loaded) then
    (List.range queries.length).map (fun i => generate_mock_embedding (rng i))
  else
    match batched_inference 7 infer queries with
    | .ok embs => embs
    | .error _ =>
        (List.range queries.length).map (fun i => generate_mock_embedding (rng i))

/-- `ColBERTService.process_image(images)` (batch size 4); images are an
abstract payload type. -/
def process_image {α : Type} (model_loaded processor_loaded : Bool)
    (infer : List α → Except Unit (List (List ℚ)))
    (rng : Nat → Nat → ℚ) (images : List α) : List (List ℚ) :=
  if ¬ (is_model_loaded model_loaded processor_loaded) then
    (List.range images.length).map (fun i => generate_mock_embedding (rng i))
  else
    match batched_inference 3 infer images with
    | .ok embs => embs
    | .error _ =>
        (List.range images.length).map (fun i => generate_mock_embedding (rng i))

theorem generate_mock_embedding_length (rng : Nat → ℚ) :
    (generate_mock_embedding rng).length = 768 := by
  simp [generate_mock_embedding, colbert_embedding_dim]

/-- **C6 (confirmed).** For every batch of texts and every batch of
images, `process_query`/`process_image` return exactly one vector per
input, each of dimension 768, for every model-availability state and
every inference-oracle behaviour (with `FORCE_MOCK_MODE = True` as in
the source, a freshly drawn mock vector is substituted per input). -/
theorem claim_C6 {α : Type} (model_loaded processor_loaded : Bool)
    (inferQ : List (List Char) → Except Unit (List (List ℚ)))
    (inferI : List α → Except Unit (List (List ℚ)))
    (rngQ rngI : Nat → Nat → ℚ)
    (queries : List (List Char)) (images : List α) :
    ((process_query model_loaded processor_loaded inferQ rngQ queries).length
        = queries.length
      ∧ ∀ v ∈ process_query model_loaded processor_loaded inferQ rngQ queries,
          v.length = 768)
    ∧ ((process_image model_loaded processor_loaded inferI rngI images).length
        = images.length
      ∧ ∀ v ∈ process_image model_loaded processor_loaded inferI rngI images,
          v.length = 768) := by
  have hml : is_model_loaded model_loaded processor_loaded = false := rfl
  refine ⟨⟨?_, ?_⟩, ⟨?_, ?_⟩⟩
  · simp [process_query, hml]
  · intro v hv
    simp only [process_query, hml, Bool.false_eq_true, not_false_eq_true,
      if_true, List.mem_map] at hv
    obtain ⟨i, _, hi⟩ := hv
    rw [← hi]
    exact generate_mock_embedding_length _
  · simp [process_image, hml]
  · intro v hv
    simp only [process_image, hml, Bool.false_eq_true, not_false_eq_true,
      if_true, List.mem_map] at hv
    obtain ⟨i, _, hi⟩ := hv
    rw [← hi]
    exact generate_mock_embedding_length _

/-! ## `ColBERTService.create_kb_collection`
(`app/rag/colbert_service.py`, lines 164–217)

State of the Milvus server: the existing collections (name and vector
dimension), which names were loaded for search, which got an index.
`utility.has_collection` is membership of the name; the whole method body
is wrapped in `try/except`, so it never surfaces an error to the caller
(the Lean model is accordingly total).  `if not utility:` is modelled by
`utilityOk`. -/

structure KbCollectionsState where
  collections : List (String × Nat)
  loaded : List String
  indexed : List String
deriving DecidableEq

/-- `ColBERTService.create_kb_collection(kb_id, dim=768)`: create the
collection (with its index) only if absent, otherwise load the existing
one. -/
def create_kb_collection (utilityOk : Bool) (st : KbCollectionsState)
    (kb_id : String) (dim : Nat) : KbCollectionsState :=
  if utilityOk = false then st
  else
    if colbert_collection_name kb_id ∈ st.collections.map Prod.fst then
      { st with loaded := colbert_collection_name kb_id :: st.loaded }
    else
      { st with
          collections := (colbert_collection_name kb_id, dim) :: st.collections,
          indexed := colbert_collection_name kb_id :: st.indexed }

/-- **C8 (confirmed).** `create_kb_collection` is idempotent: when the
collection already exists it creates nothing new and only loads the
existing collection; starting from a state without the collection, two
successive calls leave exactly one collection named for that kb_id, and
(the body being fully guarded by `try/except`) neither call surfaces an
error. -/
theorem claim_C8 :
    (∀ (st : KbCollectionsState) (kb : String) (dim : Nat),
      colbert_collection_name kb ∈ st.collections.map Prod.fst →
        create_kb_collection true st kb dim
          = { st with loaded := colbert_collection_name kb :: st.loaded })
    ∧ (∀ (st : KbCollectionsState) (kb : String) (dim dim2 : Nat),
      (st.collections.map Prod.fst).count (colbert_collection_name kb) = 0 →
        ((create_kb_collection true st kb dim).collections.map Prod.fst).count
            (colbert_collection_name kb) = 1
        ∧ (create_kb_collection true (create_kb_collection true st kb dim) kb
            dim2).collections = (create_kb_collection true st kb dim).collections
        ∧ (create_kb_collection true (create_kb_collection true st kb dim) kb
            dim2).loaded
          = colbert_collection_name kb
              :: (create_kb_collection true st kb dim).loaded) := by
  constructor
  · intro st kb dim hmem
    rw [create_kb_collection, if_neg (by simp), if_pos hmem]
  · intro st kb dim dim2 h0
    have hnot : colbert_collection_name kb ∉ st.collections.map Prod.fst :=
      List.count_eq_zero.mp h0
    have h1 : create_kb_collection true st kb dim
        = { st with
              collections := (colbert_collection_name kb, dim) :: st.collections,
              indexed := colbert_collection_name kb :: st.indexed } := by
      rw [create_kb_collection, if_neg (by simp), if_neg hnot]
    have hmem1 : colbert_collection_name kb
        ∈ (create_kb_collection true st kb dim).collections.map Prod.fst := by
      rw [h1]
      simp
    have h2 : create_kb_collection true (create_kb_collection true st kb dim)
        kb dim2
        = { create_kb_collection true st kb dim with
              loaded := colbert_collection_name kb
                :: (create_kb_collection true st kb dim).loaded } := by
      rw [create_kb_collection, if_neg (by simp), if_pos hmem1]
    refine ⟨?_, ?_, ?_⟩
    · rw [h1]
      simp [List.count_cons_self, h0]
    · rw [h2]
    · rw [h2]

/-- **C8 witness**: two successive calls starting from the empty server
state, for kb id `"kb1"` and dimension 768. -/
theorem claim_C8_witness :
    (((create_kb_collection true ⟨[], [], []⟩ "kb1" 768).collections.map
        Prod.fst).count (colbert_collection_name "kb1") = 1)
    ∧ (create_kb_collection true
        (create_kb_collection true ⟨[], [], []⟩ "kb1" 768) "kb1"
        768).collections
      = (create_kb_collection true ⟨[], [], []⟩ "kb1" 768).collections :=
  ⟨(claim_C8.2 ⟨[], [], []⟩ "kb1" 768 768 (by decide)).1,
   (claim_C8.2 ⟨[], [], []⟩ "kb1" 768 768 (by decide)).2.1⟩

/-! ## `ColBERTService.search` (`app/rag/colbert_service.py`, lines 219–333)
and `MilvusManager.search` (`app/db/milvus.py`, lines 239–310)

One Milvus hit exposes `hit.id` (the chunk id), `hit.entity.get("doc_id")`
and `hit.distance`.  The MongoDB `chunks_collection.find_one({"_id": …})`
call is the oracle `lookup` (`Except.error` = the call raised;
`Except.ok none` = it completed and found no record); `mongoAvailable`
models the `if chunks_collection:` truthiness check.  The per-hit
enrichment is wrapped in `try/except`: only a *raise* produces the
placeholder result. -/

structure SearchHit where
  chunkid : String
  docid : String
  distance : ℚ
deriving DecidableEq

/-- A chunk record from MongoDB: `text`, `metadata`, the `"type"` key
(field `kind`), `page_number`. -/
structure ChunkRecord where
  text : String
  metadata : List (String × String)
  kind : String
  page_number : Nat
deriving DecidableEq

structure SearchResult where
  chunk_id : String
  doc_id : String
  text : String
  metadata : List (String × String)
  score : ℚ
deriving DecidableEq

/-- The enriched result appended when the chunk record resolves,
including the special handling for `type == "pdf_page"`. -/
def enrich_result (hit : SearchHit) (score : ℚ) (chunk : ChunkRecord) :
    SearchResult :=
  if chunk.kind = "pdf_page" then
    { chunk_id := hit.chunkid, doc_id := hit.docid,
      text := "PDF page " ++ toString chunk.page_number ++ " from document "
        ++ hit.docid,
      metadata := ("source", "pdf") :: ("page", toString chunk.page_number)
        :: chunk.metadata,
      score := score }
  else
    { chunk_id := hit.chunkid, doc_id := hit.docid, text := chunk.text,
      metadata := chunk.metadata, score := score }

/-- The placeholder appended in the `except` branch of the per-hit loop. -/
def placeholder_result (hit : SearchHit) (score : ℚ) : SearchResult :=
  { chunk_id := hit.chunkid, doc_id := hit.docid,
    text := "Document chunk " ++ hit.chunkid, metadata := [], score := score }

/-- The `for hit in results:` loop of `ColBERTService.search`. -/
def process_hits (mongoAvailable : Bool)
    (lookup : String → Except Unit (Option ChunkRecord)) :
    List SearchHit → List SearchResult
  | [] => []
  | hit :: rest =>
      (if mongoAvailable then
        match lookup hit.chunkid with
        | .ok (some chunk) => [enrich_result hit (l2_to_score hit.distance) chunk]
        | .ok none => []
        | .error _ => [placeholder_result hit (l2_to_score hit.distance)]
      else []) ++ process_hits mongoAvailable lookup rest

/-- `ColBERTService._mock_search_results(query, top_k)`: `min(top_k, 3)`
fabricated entries; `rng i` supplies the random uuids and score of the
i-th entry. -/
def mock_search_results (rng : Nat → String × String × ℚ) (query : String)
    (top_k : Nat) : List SearchResult :=
  (List.range (min top_k 3)).map (fun i =>
    { chunk_id := (rng i).1, doc_id := (rng i).2.1,
      text := "This is a mock search result " ++ toString (i + 1)
        ++ " for query: " ++ query,
      metadata := [("source", "mock"), ("page", toString (i + 1))],
      score := (rng i).2.2 })

structure SearchEnv where
  utilityOk : Bool
  has_collection : Bool
  vector_search : Except Unit (List SearchHit)
  mongoAvailable : Bool
  lookup : String → Except Unit (Option ChunkRecord)
  rng : Nat → String × String × ℚ

/-- `ColBERTService.search(query, kb_id, top_k)`.  The collection name is
`colbert_collection_name kb_id`; `env.has_collection` is
`utility.has_collection` for that name; `env.vector_search` is the
embed-load-search block inside the outer `try` (its raise falls back to
mock results). -/
def colbert_search (env : SearchEnv) (query : String) (kb_id : String)
    (top_k : Nat) : List SearchResult :=
  if ¬(env.utilityOk && env.has_collection) then
    mock_search_results env.rng query top_k
  else
    match env.vector_search with
    | .error _ => mock_search_results env.rng query top_k
    | .ok hits => process_hits env.mongoAvailable env.lookup hits

structure MilvusSearchEnv where
  connected : Bool
  init_ok : Bool
  collection_found : Bool
  raw_hits : Except Unit (List (List SearchHit))

/-- `MilvusManager.search(collection_name, query_vectors, top_k)`:
returns `[]` when not connected, when `get_collection` finds no
collection, or when the search raises; otherwise the formatted hits. -/
def milvus_search (env : MilvusSearchEnv) : List (List SearchHit) :=
  if ¬(env.connected || env.init_ok) then []
  else if ¬ env.collection_found then []
  else
    match env.raw_hits with
    | .error _ => []
    | .ok hitss => hitss

theorem enrich_result_chunk_id (hit : SearchHit) (s : ℚ) (c : ChunkRecord) :
    (enrich_result hit s c).chunk_id = hit.chunkid := by
  rw [enrich_result]
  split <;> rfl

theorem process_hits_origin (avail : Bool)
    (lookup : String → Except Unit (Option ChunkRecord))
    (hits : List SearchHit) :
    ∀ r ∈ process_hits avail lookup hits, ∃ hit ∈ hits, r.chunk_id = hit.chunkid := by
  induction hits with
  | nil => intro r hr; simp [process_hits] at hr
  | cons a t ih =>
    intro r hr
    rw [process_hits] at hr
    rcases List.mem_append.mp hr with h | h
    · refine ⟨a, List.mem_cons_self a t, ?_⟩
      by_cases hav : avail
      · rw [if_pos hav] at h
        rcases hl : lookup a.chunkid with e | oc
        · rw [hl] at h
          simp at h
          rw [h]
          rfl
        · rw [hl] at h
          cases oc with
          | none => simp at h
          | some c =>
            simp at h
            rw [h]
            exact enrich_result_chunk_id a _ c
      · rw [if_neg hav] at h
        simp at h
    · obtain ⟨hit, hhit, heq⟩ := ih r h
      exact ⟨hit, List.mem_cons_of_mem a hhit, heq⟩

def hit_c3 : SearchHit := ⟨"c1", "d1", 1⟩

/-- **C3, counterexample.** A hit whose metadata lookup completes but
finds no record (`find_one` returns `None`, no exception raised, MongoDB
available) produces NO entry at all in the result list: the hit is
silently dropped, not degraded to a placeholder. -/
theorem claim_C3_counterexample :
    process_hits true (fun _ => Except.ok none) [hit_c3] = []
    ∧ ([hit_c3] : List SearchHit) ≠ [] := by
  constructor
  · rfl
  · decide

/-- **C3 (amended).** In the per-hit enrichment loop of
`ColBERTService.search`: a hit whose metadata record resolves yields the
enriched entry, and a hit whose lookup *raises* yields the placeholder
built from chunk_id/doc_id; but a hit whose lookup completes without
finding a record is silently dropped (no entry with its chunk id appears
in the results), and when the metadata store is unavailable every hit is
dropped and the result list is empty. -/
theorem claim_C3_amended (avail : Bool)
    (lookup : String → Except Unit (Option ChunkRecord))
    (hits : List SearchHit) :
    (∀ hit ∈ hits, lookup hit.chunkid = Except.error () → avail = true →
        placeholder_result hit (l2_to_score hit.distance)
          ∈ process_hits avail lookup hits)
    ∧ (∀ hit ∈ hits, ∀ chunk, lookup hit.chunkid = Except.ok (some chunk) →
        avail = true →
        enrich_result hit (l2_to_score hit.distance) chunk
          ∈ process_hits avail lookup hits)
    ∧ (avail = false → process_hits avail lookup hits = [])
    ∧ (List.Pairwise (fun a b => a.chunkid ≠ b.chunkid) hits →
        ∀ hit ∈ hits, lookup hit.chunkid = Except.ok none →
          ∀ r ∈ process_hits avail lookup hits, r.chunk_id ≠ hit.chunkid) := by
  refine ⟨?_, ?_, ?_, ?_⟩
  · intro hit hmem herr hav
    subst hav
    induction hits with
    | nil => simp at hmem
    | cons a t ih =>
      rw [process_hits]
      rcases List.mem_cons.mp hmem with h | h
      · subst h
        rw [if_pos rfl, herr]
        exact List.mem_append_left _ (List.mem_singleton.mpr rfl)
      · exact List.mem_append_right _ (ih h)
  · intro hit hmem chunk hok hav
    subst hav
    induction hits with
    | nil => simp at hmem
    | cons a t ih =>
      rw [process_hits]
      rcases List.mem_cons.mp hmem with h | h
      · subst h
        rw [if_pos rfl, hok]
        exact List.mem_append_left _ (List.mem_singleton.mpr rfl)
      · exact List.mem_append_right _ (ih h)
  · intro hav
    subst hav
    induction hits with
    | nil => rfl
    | cons a t ih =>
      rw [process_hits, if_neg (by simp)]
      simpa using ih
  · intro hpw hit hmem hnone r hr
    induction hits with
    | nil => simp at hmem
    | cons a t ih =>
      rw [process_hits] at hr
      have hpw1 : ∀ b ∈ t, a.chunkid ≠ b.chunkid :=
        (List.pairwise_cons.mp hpw).1
      have hpw2 : List.Pairwise (fun x y => x.chunkid ≠ y.chunkid) t :=
        (List.pairwise_cons.mp hpw).2
      rcases List.mem_append.mp hr with h | h
      · have hra : r.chunk_id = a.chunkid := by
          by_cases hav : avail
          · rw [if_pos hav] at h
            rcases hl : lookup a.chunkid with e | oc
            · rw [hl] at h
              simp at h
              rw [h]
              rfl
            · rw [hl] at h
              cases oc with
              | none => simp at h
              | some c =>
                simp at h
                rw [h]
                exact enrich_result_chunk_id a _ c
          · rw [if_neg hav] at h
            simp at h
        rcases List.mem_cons.mp hmem with hh | hh
        · subst hh
          by_cases hav : avail
          · rw [if_pos hav, hnone] at h
            simp at h
          · rw [if_neg hav] at h
            simp at h
        · rw [hra]
          exact hpw1 hit hh
      · rcases List.mem_cons.mp hmem with hh | hh
        · subst hh
          obtain ⟨hit2, hhit2, heq⟩ := process_hits_origin avail lookup t r h
          rw [heq]
          exact fun hc => hpw1 hit2 hhit2 hc.symm
        · exact ih hpw2 hh h

/-- **C3 witness**: the amended theorem's placeholder case at a concrete
hit whose metadata lookup raises. -/
theorem claim_C3_witness :
    placeholder_result hit_c3 (l2_to_score hit_c3.distance)
      ∈ process_hits true (fun _ => Except.error ()) [hit_c3] :=
  (claim_C3_amended true (fun _ => Except.error ()) [hit_c3]).1 hit_c3
    (List.mem_singleton.mpr rfl) rfl rfl

/-- An environment whose kb collection does not exist (everything else
healthy). -/
def search_env_nocoll : SearchEnv :=
  { utilityOk := true, has_collection := false,
    vector_search := Except.ok [], mongoAvailable := true,
    lookup := fun _ => Except.ok none,
    rng := fun _ => ("mock-chunk", "mock-doc", 1/2) }

/-- **C4, counterexample.** Querying a kb whose collection does not exist
with `top_k = 5` does NOT return the empty list: `ColBERTService.search`
falls back to `_mock_search_results` and returns 3 fabricated results. -/
theorem claim_C4_counterexample :
    (colbert_search search_env_nocoll "q" "kb" 5).length = 3
    ∧ colbert_search search_env_nocoll "q" "kb" 5 ≠ [] := by
  constructor
  · rfl
  · decide

/-- **C4 (amended).** Against a kb id whose vector collection does not
exist, `ColBERTService.search` returns `min(top_k, 3)` fabricated mock
results — empty only when `top_k = 0`, never an error — while the lower
level `MilvusManager.search` is the one that returns `[]` for a missing
collection. -/
theorem claim_C4_amended :
    (∀ (env : SearchEnv) (query kb_id : String) (top_k : Nat),
      env.has_collection = false →
        (colbert_search env query kb_id top_k).length = min top_k 3)
    ∧ (∀ env : MilvusSearchEnv, env.collection_found = false →
        milvus_search env = []) := by
  constructor
  · intro env query kb_id top_k hnc
    rw [colbert_search, if_pos (by simp [hnc])]
    simp [mock_search_results]
  · intro env hnc
    rw [milvus_search]
    by_cases hc : env.connected || env.init_ok
    · rw [if_neg (by simp [hc]), if_pos (by simp [hnc])]
    · rw [if_pos (by simpa using hc)]

/-- **C4 witness**: the amended theorem at the concrete
missing-collection environment with `top_k = 5`. -/
theorem claim_C4_witness :
    (colbert_search search_env_nocoll "q" "kb" 5).length = min 5 3
    ∧ milvus_search ⟨true, true, false, Except.ok []⟩ = [] :=
  ⟨claim_C4_amended.1 search_env_nocoll "q" "kb" 5 rfl,
   claim_C4_amended.2 ⟨true, true, false, Except.ok []⟩ rfl⟩

/-! ## `DocumentProcessor.process_file` (`app/rag/convert_file.py`,
lines 57–113), `_process_pdf_as_images` (115–196) and `_process_chunks`
(433–497)

Oracles for each external effect, with the source's `try/except`
structure: the raw-file write has no handler (its failure propagates to
the caller); text extraction and the document-record insert absorb their
failures; in the PDF path, the whole conversion is wrapped in one outer
`try` and each page additionally wraps embed → create-collection →
`Collection(...)`/insert → chunk-record insert in an inner per-page
`try`, while `image.save` sits *outside* the inner `try` (its raise is
caught by the outer handler, skipping all remaining pages); in the text
path `_process_chunks` absorbs everything. -/

structure IngestEnv where
  fileSaveOk : Bool
  extractedText : List Char
  docsAvailable : Bool
  docInsertRaises : Bool
  pdfPages : Except Unit Nat
  mkdirOk : Bool
  imageSaveOk : Nat → Bool
  embedRaises : Nat → Bool
  insertRaises : Nat → Bool
  chunksAvailable : Bool
  metaRaises : Nat → Bool
  embedBatchRaises : Bool
  collectionCtorRaises : Bool
  textMetaRaises : Nat → Bool
  bulkInsertRaises : Bool

/-- Which chunk ordinals ended up with a vector in Milvus and with a
metadata record in MongoDB. -/
structure ChunkOutcomes where
  vectors : List Nat
  records : List Nat
deriving DecidableEq

/-- The per-page loop of `_process_pdf_as_images`.  A failing
`image.save` aborts the remaining pages via the outer handler; failures
of the steps inside the inner per-page `try` only skip that page. -/
def pdf_loop (env : IngestEnv) : List Nat → ChunkOutcomes
  | [] => ⟨[], []⟩
  | i :: rest =>
      if env.imageSaveOk i then
        let vec := !env.embedRaises i && !env.insertRaises i
        let meta := vec && (env.chunksAvailable && !env.metaRaises i)
        let tail := pdf_loop env rest
        ⟨(if vec then [i] else []) ++ tail.vectors,
         (if meta then [i] else []) ++ tail.records⟩
      else ⟨[], []⟩

/-- `DocumentProcessor._process_pdf_as_images`: total (outer `try`
catches everything, logging only). -/
def process_pdf_as_images (env : IngestEnv) : ChunkOutcomes :=
  match env.pdfPages with
  | .error _ => ⟨[], []⟩
  | .ok n => if env.mkdirOk then pdf_loop env (List.range n) else ⟨[], []⟩

/-- `DocumentProcessor._process_chunks`: total; a raise of the batched
embedding call or of `Collection(...)` skips everything, per-chunk
MongoDB inserts and the single bulk vector insert each absorb their own
failures. -/
def process_chunks (env : IngestEnv) (chunks : List (List Char)) :
    ChunkOutcomes :=
  if chunks.isEmpty then ⟨[], []⟩
  else if env.embedBatchRaises then ⟨[], []⟩
  else if env.collectionCtorRaises then ⟨[], []⟩
  else
    ⟨if env.bulkInsertRaises then [] else List.range chunks.length,
     (List.range chunks.length).filter
       (fun i => env.chunksAvailable && !env.textMetaRaises i)⟩

/-- `DocumentProcessor.process_file(file_content, filename, kb_id, …)`.
Returns the generated `doc_id` together with whether the document record
was stored and the per-chunk outcomes; only a failing raw-file write
escapes as an exception. -/
def dp_process_file (env : IngestEnv) (doc_id : String) (isPdf : Bool)
    (chunk_size chunk_overlap : Nat) (hov : chunk_overlap < chunk_size) :
    Except Unit (String × Bool × ChunkOutcomes) :=
  if env.fileSaveOk = false then .error ()
  else
    .ok (doc_id,
      env.docsAvailable && !env.docInsertRaises,
      if isPdf then process_pdf_as_images env
      else process_chunks env
        (splitText env.extractedText chunk_size chunk_overlap hov))

theorem pdf_loop_all_saves (env : IngestEnv) (l : List Nat)
    (hs : ∀ i, env.imageSaveOk i = true) :
    (pdf_loop env l).vectors
      = l.filter (fun i => !env.embedRaises i && !env.insertRaises i) := by
  induction l with
  | nil => rfl
  | cons a t ih =>
    rw [pdf_loop, if_pos (hs a), List.filter_cons]
    cases hv : (!env.embedRaises a && !env.insertRaises a) <;> simp [hv, ih]

/-- **C5 (confirmed).** Once the raw file write (step 2) succeeds,
`process_file` returns the document id whatever the fate of every later
step — extraction, document-record insert, PDF conversion, per-page
embedding, collection creation, vector insertion, chunk-record
persistence, or the whole text-path batch; and in the PDF path (with the
pages saved) each page's failure only skips that page: page `i` is
indexed exactly when its own embed and insert steps succeed, regardless
of every other page. -/
theorem claim_C5 (env : IngestEnv) (doc_id : String) (isPdf : Bool)
    (cs co : Nat) (hov : co < cs) (hsave : env.fileSaveOk = true) :
    (∃ b r, dp_process_file env doc_id isPdf cs co hov
        = Except.ok (doc_id, b, r))
    ∧ (∀ n, env.pdfPages = Except.ok n → env.mkdirOk = true →
        (∀ i, env.imageSaveOk i = true) →
        (process_pdf_as_images env).vectors
          = (List.range n).filter
              (fun i => !env.embedRaises i && !env.insertRaises i)) := by
  constructor
  · rw [dp_process_file, if_neg (by simp [hsave])]
    exact ⟨_, _, rfl⟩
  · intro n hn hmk hs
    rw [process_pdf_as_images, hn]
    simp only [hmk, if_true]
    exact pdf_loop_all_saves env (List.range n) hs

/-- An environment in which every step after the raw-file write fails. -/
def ingest_env_allfail : IngestEnv :=
  { fileSaveOk := true, extractedText := [], docsAvailable := false,
    docInsertRaises := true, pdfPages := Except.error (), mkdirOk := false,
    imageSaveOk := fun _ => false, embedRaises := fun _ => true,
    insertRaises := fun _ => true, chunksAvailable := false,
    metaRaises := fun _ => true, embedBatchRaises := true,
    collectionCtorRaises := true, textMetaRaises := fun _ => true,
    bulkInsertRaises := true }

/-- **C5 witness**: with everything after the raw-file write failing, the
coordinator still returns the document id. -/
theorem claim_C5_witness :
    ∃ b r, dp_process_file ingest_env_allfail "doc-1" true 5 2 (by omega)
      = Except.ok ("doc-1", b, r) :=
  (claim_C5 ingest_env_allfail "doc-1" true 5 2 (by omega) rfl).1

/-! ## `replace_image_content` (`app/rag/process_file.py`, lines 162–186)

```python
new_messages = copy.deepcopy(messages)
for message in new_messages:
    if "content" not in message: continue
    for item in message["content"]:
        if isinstance(item, dict) and item.get("type") == "image_url":
            image_base64 = await ...download...(item["image_url"])
            item["image_url"] = {"url": f"data:image/png;base64,{image_base64}"}
return new_messages
```

Python objects live on a heap of addresses; a message's `"content"` list
holds references to content-item objects.  `copy.deepcopy` allocates
fresh addresses (at `next` and above) carrying copies of the values; the
mutation loop then writes only through the copied references.  `download`
is the oracle for `download_image_and_convert_to_base64`. -/

inductive ImageRef where
  | url (s : String)
  | obj (s : String)
deriving DecidableEq

/-- A content item: a dict with `type == "image_url"` (carrying its
`item["image_url"]` value), or anything else (skipped by the loop). -/
inductive ContentItem where
  | imageItem (ref : ImageRef)
  | otherItem (payload : String)
deriving DecidableEq

/-- A chat message: `none` models a dict without a `"content"` key. -/
structure ChatMessage where
  content : Option (List Nat)
deriving DecidableEq

structure Heap where
  store : Nat → ContentItem
  next : Nat

/-- Deep-copy one content list: each item gets a fresh address holding a
copy of its value. -/
def copy_items (h : Heap) : List Nat → Heap × List Nat
  | [] => (h, [])
  | a :: rest =>
      ((copy_items ⟨fun x => if x = h.next then h.store a else h.store x,
          h.next + 1⟩ rest).1,
       h.next :: (copy_items ⟨fun x => if x = h.next then h.store a
          else h.store x, h.next + 1⟩ rest).2)

/-- Deep-copy of the message list (`copy.deepcopy(messages)`). -/
def copy_messages (h : Heap) : List ChatMessage → Heap × List ChatMessage
  | [] => (h, [])
  | m :: rest =>
      match m.content with
      | none =>
          ((copy_messages h rest).1,
           ⟨none⟩ :: (copy_messages h rest).2)
      | some addrs =>
          ((copy_messages (copy_items h addrs).1 rest).1,
           ⟨some (copy_items h addrs).2⟩
             :: (copy_messages (copy_items h addrs).1 rest).2)

/-- The in-place update of one content item: only `image_url`-typed dicts
are rewritten, to the base64 data-URL object. -/
def mutate_item (download : ImageRef → String) : ContentItem → ContentItem
  | .imageItem ref =>
      .imageItem (.obj ("data:image/png;base64," ++ download ref))
  | .otherItem p => .otherItem p

/-- The inner `for item in message["content"]` loop, writing through the
given references. -/
def mutate_items (download : ImageRef → String) (h : Heap) :
    List Nat → Heap
  | [] => h
  | a :: rest =>
      mutate_items download
        ⟨fun x => if x = a then mutate_item download (h.store a) else h.store x,
         h.next⟩ rest

/-- The outer `for message in new_messages` loop. -/
def mutate_messages (download : ImageRef → String) (h : Heap) :
    List ChatMessage → Heap
  | [] => h
  | m :: rest =>
      match m.content with
      | none => mutate_messages download h rest
      | some addrs =>
          mutate_messages download (mutate_items download h addrs) rest

/-- `replace_image_content(messages)`: deep copy, then mutate only the
copy; returns the final heap and the new message list. -/
def replace_image_content (download : ImageRef → String) (h : Heap)
    (messages : List ChatMessage) : Heap × List ChatMessage :=
  (mutate_messages download (copy_messages h messages).1
      (copy_messages h messages).2,
   (copy_messages h messages).2)

theorem copy_items_next_mono (h : Heap) (l : List Nat) :
    h.next ≤ (copy_items h l).1.next := by
  induction l generalizing h with
  | nil => exact le_refl _
  | cons a rest ih =>
    simp only [copy_items]
    exact le_trans (Nat.le_succ _)
      (ih ⟨fun x => if x = h.next then h.store a else h.store x, h.next + 1⟩)

theorem copy_items_store_frame (h : Heap) (l : List Nat) :
    ∀ a, a < h.next → (copy_items h l).1.store a = h.store a := by
  induction l generalizing h with
  | nil => intro a _; rfl
  | cons b rest ih =>
    intro a ha
    simp only [copy_items]
    rw [ih _ a (by simpa using Nat.lt_succ_of_lt ha)]
    simp only []
    rw [if_neg (by omega)]

theorem copy_items_addrs_ge (h : Heap) (l : List Nat) :
    ∀ b ∈ (copy_items h l).2, h.next ≤ b := by
  induction l generalizing h with
  | nil => intro b hb; simp [copy_items] at hb
  | cons a rest ih =>
    intro b hb
    simp only [copy_items] at hb
    rcases List.mem_cons.mp hb with hh | hh
    · omega
    · have := ih _ b hh
      simp only [] at this
      omega

theorem copy_messages_next_mono (h : Heap) (msgs : List ChatMessage) :
    h.next ≤ (copy_messages h msgs).1.next := by
  induction msgs generalizing h with
  | nil => exact le_refl _
  | cons m rest ih =>
    cases hc : m.content with
    | none =>
      simp only [copy_messages, hc]
      exact ih h
    | some addrs =>
      simp only [copy_messages, hc]
      exact le_trans (copy_items_next_mono h addrs) (ih (copy_items h addrs).1)

theorem copy_messages_store_frame (h : Heap) (msgs : List ChatMessage) :
    ∀ a, a < h.next → (copy_messages h msgs).1.store a = h.store a := by
  induction msgs generalizing h with
  | nil => intro a _; rfl
  | cons m rest ih =>
    intro a ha
    cases hc : m.content with
    | none =>
      simp only [copy_messages, hc]
      exact ih h a ha
    | some addrs =>
      simp only [copy_messages, hc]
      rw [ih (copy_items h addrs).1 a
        (lt_of_lt_of_le ha (copy_items_next_mono h addrs))]
      exact copy_items_store_frame h addrs a ha

theorem copy_messages_addrs_ge (h : Heap) (msgs : List ChatMessage) :
    ∀ m ∈ (copy_messages h msgs).2, ∀ addrs, m.content = some addrs →
      ∀ b ∈ addrs, h.next ≤ b := by
  induction msgs generalizing h with
  | nil => intro m hm; simp [copy_messages] at hm
  | cons m0 rest ih =>
    intro m hm addrs haddrs b hb
    cases hc : m0.content with
    | none =>
      simp only [copy_messages, hc] at hm
      rcases List.mem_cons.mp hm with hh | hh
      · subst hh
        simp at haddrs
      · exact ih h m hh addrs haddrs b hb
    | some addrs0 =>
      simp only [copy_messages, hc] at hm
      rcases List.mem_cons.mp hm with hh | hh
      · subst hh
        have haa : addrs = (copy_items h addrs0).2 := by
          simpa using haddrs.symm
        subst haa
        exact copy_items_addrs_ge h addrs0 b hb
      · exact le_trans (copy_items_next_mono h addrs0)
          (ih (copy_items h addrs0).1 m hh addrs haddrs b hb)

theorem mutate_items_frame (d : ImageRef → String) (N : Nat) :
    ∀ (l : List Nat) (h : Heap), (∀ b ∈ l, N ≤ b) →
      ∀ a, a < N → (mutate_items d h l).store a = h.store a := by
  intro l
  induction l with
  | nil => intro h _ a _; rfl
  | cons b rest ih =>
    intro h hl a ha
    simp only [mutate_items]
    rw [ih ⟨fun x => if x = b then mutate_item d (h.store b) else h.store x,
        h.next⟩ (fun x hx => hl x (List.mem_cons_of_mem b hx)) a ha]
    simp only []
    rw [if_neg (by have := hl b (List.mem_cons_self b rest); omega)]

theorem mutate_messages_frame (d : ImageRef → String) (N : Nat) :
    ∀ (msgs : List ChatMessage) (h : Heap),
      (∀ m ∈ msgs, ∀ addrs, m.content = some addrs → ∀ b ∈ addrs, N ≤ b) →
      ∀ a, a < N → (mutate_messages d h msgs).store a = h.store a := by
  intro msgs
  induction msgs with
  | nil => intro h _ a _; rfl
  | cons m rest ih =>
    intro h hm a ha
    cases hc : m.content with
    | none =>
      simp only [mutate_messages, hc]
      exact ih h (fun m2 h2 => hm m2 (List.mem_cons_of_mem m h2)) a ha
    | some addrs =>
      simp only [mutate_messages, hc]
      rw [ih (mutate_items d h addrs)
        (fun m2 h2 => hm m2 (List.mem_cons_of_mem m h2)) a ha]
      exact mutate_items_frame d N addrs h
        (hm m (List.mem_cons_self m rest) addrs hc) a ha

/-- **C10 (confirmed).** `replace_image_content` never mutates its input:
every heap address allocated before the call (in particular every content
object of the original messages) holds the same value afterwards, and the
returned message list references only freshly allocated copies — so
`image_url` replacement happens only in the deep copy that is returned. -/
theorem claim_C10 (download : ImageRef → String) (h : Heap)
    (messages : List ChatMessage) :
    (∀ a, a < h.next →
      ((replace_image_content download h messages).1).store a = h.store a)
    ∧ (∀ m ∈ (replace_image_content download h messages).2,
        ∀ addrs, m.content = some addrs → ∀ b ∈ addrs, h.next ≤ b) := by
  constructor
  · intro a ha
    show (mutate_messages download (copy_messages h messages).1
        (copy_messages h messages).2).store a = h.store a
    rw [mutate_messages_frame download h.next (copy_messages h messages).2
      (copy_messages h messages).1 (copy_messages_addrs_ge h messages) a ha]
    exact copy_messages_store_frame h messages a ha
  · intro m hm addrs haddrs b hb
    exact copy_messages_addrs_ge h messages m hm addrs haddrs b hb

/-- A one-message heap: the original content item lives at address 0. -/
def heap_c10 : Heap := ⟨fun _ => ContentItem.imageItem (ImageRef.url "u"), 1⟩

def msgs_c10 : List ChatMessage := [⟨some [0]⟩]

/-- **C10 witness**: after the call, the original item at address 0 is
unchanged. -/
theorem claim_C10_witness :
    ((replace_image_content (fun _ => "QUJD") heap_c10 msgs_c10).1).store 0
      = heap_c10.store 0 :=
  (claim_C10 (fun _ => "QUJD") heap_c10 msgs_c10).1 0 (by decide)
